import Mathlib

/-!
# go-config: verification of the configuration-tree engine

A shallow embedding of the `config` package of the `golibry/go-config`
repository (`src/config/builder.go`) together with theorems settling the
frozen claims about its specification.

Modelling conventions:

* Go strings are modelled at the character level (`List Char` for the
  masking routine, Lean `String` elsewhere).  The Go source indexes bytes;
  on ASCII data — the intended domain of field names, keys and
  connection strings — byte and character indexing coincide.
* Reflection shapes are modelled by explicit inductive types: `PShape`
  for the populate traversal (struct kind versus every other kind) and
  `DVal` for the debug serializer (pointer, struct, slice/array, map,
  scalar).
* `fmt.Sprintf("%v", x)` is modelled by `fmtV`.  For pointers that Go's
  `fmt` renders as a machine address (pointers to non-composite values)
  the unpredictable hex address is abstracted as the placeholder
  `"0x0"`; no claim depends on that case.
* Effectful collaborators (`os.Stat`, `godotenv.Load`, the validator)
  are passed in as explicit function arguments or result values.
-/

namespace GoConfig

/-! ## Masking (`maskSensitiveData`, builder.go lines 333-361) -/

/-- `strings.Split data sep` for a single-character separator, transcribed
from the Go standard library semantics: splitting the empty string yields
`[[]]`, and each occurrence of the separator starts a new chunk. -/
def goSplit (sep : Char) : List Char → List (List Char)
  | [] => [[]]
  | c :: cs =>
    if c = sep then [] :: goSplit sep cs
    else
      match goSplit sep cs with
      | [] => [[c]]
      | p :: ps => (c :: p) :: ps

/-- The generic masking rule of `maskSensitiveData` (builder.go lines
355-360): length at most two becomes all asterisks, otherwise the first
and last characters are kept and the interior is replaced by asterisks. -/
def genericMask (data : List Char) : List Char :=
  if data.length ≤ 2 then List.replicate data.length '*'
  else data.headI :: (List.replicate (data.length - 2) '*' ++ [data.getLastD ' '])

/-- `maskSensitiveData` (builder.go lines 334-361): empty input is
returned unchanged; text containing both `'@'` and `':'` is treated as a
connection string — it is split on `'@'` and, when the part before the
first `'@'` is longer than two characters, that part is masked and
re-joined with `'@'` and the second chunk of the split; every other case
falls through to the generic rule. -/
def maskSensitiveData (data : List Char) : List Char :=
  if data = [] then []
  else if data.contains '@' && data.contains ':' then
    let parts := goSplit '@' data
    if 2 ≤ parts.length then
      let userPass := parts.headI
      if 2 < userPass.length then
        (userPass.headI :: (List.replicate (userPass.length - 2) '*' ++ [userPass.getLastD ' ']))
          ++ '@' :: parts.getD 1 []
      else genericMask data
    else genericMask data
  else genericMask data

theorem goSplit_ne_nil (sep : Char) (l : List Char) : goSplit sep l ≠ [] := by
  induction l with
  | nil => simp [goSplit]
  | cons c cs ih =>
    simp only [goSplit]
    split
    · simp
    · split
      · simp
      · simp

/-- Splitting a list whose head chunk contains no separator peels off that
chunk. -/
theorem goSplit_append (sep : Char) (pre suf : List Char) (h : sep ∉ pre) :
    goSplit sep (pre ++ sep :: suf) = pre :: goSplit sep suf := by
  induction pre with
  | nil => simp [goSplit]
  | cons c cs ih =>
    have hc : c ≠ sep := by
      intro hcs; exact h (hcs ▸ List.mem_cons_self c cs)
    have hcs : sep ∉ cs := fun hm => h (List.mem_cons_of_mem c hm)
    simp only [List.cons_append, goSplit, if_neg hc, List.append_eq, ih hcs]

/-- Splitting a list without the separator yields the single chunk. -/
theorem goSplit_of_not_mem (sep : Char) (l : List Char) (h : sep ∉ l) :
    goSplit sep l = [l] := by
  induction l with
  | nil => rfl
  | cons c cs ih =>
    have hc : c ≠ sep := by
      intro hcs; exact h (hcs ▸ List.mem_cons_self c cs)
    have hcs : sep ∉ cs := fun hm => h (List.mem_cons_of_mem c hm)
    simp only [goSplit, if_neg hc, ih hcs]

/-- Every chunk produced by `goSplit` is at most as long as the input. -/
theorem goSplit_headI_length_le (sep : Char) (l : List Char) :
    (goSplit sep l).headI.length ≤ l.length := by
  induction l with
  | nil => simp [goSplit]
  | cons c cs ih =>
    simp only [goSplit]
    split
    · simp
    · match hg : goSplit sep cs with
      | [] => exact absurd hg (goSplit_ne_nil sep cs)
      | p :: ps =>
        simp only [List.headI]
        rw [hg] at ih
        simpa using Nat.succ_le_succ ih

theorem contains_false_of_not_mem (l : List Char) (a : Char) (h : a ∉ l) :
    l.contains a = false := by
  rw [List.contains_eq_any_beq]
  simp only [List.any_eq_false]
  intro x hx
  simp only [beq_iff_eq]
  intro he; exact h (he ▸ hx)

theorem contains_true_of_mem (l : List Char) (a : Char) (h : a ∈ l) :
    l.contains a = true := by
  simp [List.contains_eq_any_beq, List.any_eq_true]
  exact h

/-- C4 (counterexample): the claim says the remainder after the first `'@'`
is re-joined verbatim, but `strings.Split` splits on every `'@'` and the
code only re-attaches the second chunk, so masking `"ab:c@d@ef"` yields
`"a**c@d"` and drops `"@ef"`, not the claimed `"a**c@d@ef"`. -/
theorem mask_dsn_counterexample :
    maskSensitiveData ("ab:c@d@ef".data) = "a**c@d".data ∧
      maskSensitiveData ("ab:c@d@ef".data) ≠ "a**c@d@ef".data := by
  constructor
  · decide
  · decide

/-- C4 (amended): for sensitive text containing `':'` and exactly one
`'@'` whose part before the `'@'` is longer than two characters, masking
keeps that part's first and last character, replaces its interior by
`(length-2)` asterisks, and re-joins with `'@'` and the untouched
remainder.  (With more than one `'@'` only the chunk between the first
and second `'@'` survives; see the counterexample.) -/
theorem mask_dsn_single_at (pre suf : List Char)
    (hp : '@' ∉ pre) (hs : '@' ∉ suf) (hlen : 2 < pre.length)
    (hc : ':' ∈ pre ++ '@' :: suf) :
    maskSensitiveData (pre ++ '@' :: suf)
      = (pre.headI :: (List.replicate (pre.length - 2) '*' ++ [pre.getLastD ' ']))
          ++ '@' :: suf := by
  have hne : pre ++ '@' :: suf ≠ [] := by simp
  have hat : (pre ++ '@' :: suf).contains '@' = true :=
    contains_true_of_mem _ _ (by simp)
  have hcol : (pre ++ '@' :: suf).contains ':' = true :=
    contains_true_of_mem _ _ hc
  have hsplit : goSplit '@' (pre ++ '@' :: suf) = pre :: [suf] := by
    rw [goSplit_append '@' pre suf hp, goSplit_of_not_mem '@' suf hs]
  rw [maskSensitiveData, if_neg hne, hat, hcol]
  simp only [Bool.and_self, if_true, hsplit]
  simp only [List.length_cons, List.length_singleton, List.headI, List.getD]
  rw [if_pos (by omega), if_pos hlen]
  rfl

/-- C6: generic masking shape property.  For sensitive text of length at
least three containing neither `'@'` nor `':'`, the masked output has the
same length, the same first and last character, and an all-asterisk
interior; for text of length at most two the output is that many
asterisks (so the empty text stays empty). -/
theorem mask_generic_shape (data : List Char) :
    (3 ≤ data.length → '@' ∉ data → ':' ∉ data →
      (maskSensitiveData data).length = data.length ∧
      (maskSensitiveData data).headI = data.headI ∧
      (maskSensitiveData data).getLastD ' ' = data.getLastD ' ' ∧
      ∀ c ∈ ((maskSensitiveData data).drop 1).dropLast, c = '*') ∧
    (data.length ≤ 2 → maskSensitiveData data = List.replicate data.length '*') := by
  constructor
  · intro h3 hat hcol
    have hne : data ≠ [] := by
      intro he; rw [he] at h3; simp at h3
    have hgt : ¬ data.length ≤ 2 := by omega
    have hcond : (data.contains '@' && data.contains ':') = false := by
      rw [contains_false_of_not_mem _ _ hat, Bool.false_and]
    have hmask : maskSensitiveData data
        = data.headI :: (List.replicate (data.length - 2) '*' ++ [data.getLastD ' ']) := by
      rw [maskSensitiveData, if_neg hne, hcond, if_neg Bool.false_ne_true,
        genericMask, if_neg hgt]
    refine ⟨?_, ?_, ?_, ?_⟩
    · rw [hmask]; simp; omega
    · rw [hmask]; rfl
    · rw [hmask, List.getLastD_cons, List.getLastD_concat]
    · intro c hcmem
      rw [hmask] at hcmem
      simp only [List.drop_succ_cons, List.drop_zero, List.dropLast_concat] at hcmem
      exact List.eq_of_mem_replicate hcmem
  · intro h2
    by_cases hne : data = []
    · subst hne; rfl
    · have hgen : genericMask data = List.replicate data.length '*' := by
        rw [genericMask, if_pos h2]
      have hle : ¬ 2 < (goSplit '@' data).headI.length := by
        have hh := goSplit_headI_length_le '@' data
        omega
      simp only [maskSensitiveData]
      split_ifs with hA hB
      · exact hgen
      · exact hgen
      · exact hgen

/-- Witness for `mask_dsn_single_at` at the spec's own connection-string
example `"u:p@host:5432/db"`. -/
theorem mask_dsn_single_at_witness :
    maskSensitiveData ("u:p".data ++ '@' :: "host:5432/db".data)
      = ("u:p".data.headI
          :: (List.replicate ("u:p".data.length - 2) '*' ++ ["u:p".data.getLastD ' ']))
          ++ '@' :: "host:5432/db".data :=
  mask_dsn_single_at "u:p".data "host:5432/db".data
    (by decide) (by decide) (by decide) (by decide)

/-- Witness for `mask_generic_shape`, at `"abc"` for the long branch and
`"ab"` for the short branch. -/
theorem mask_generic_shape_witness :
    (maskSensitiveData "abc".data).length = "abc".data.length ∧
      maskSensitiveData "ab".data = List.replicate "ab".data.length '*' :=
  ⟨((mask_generic_shape "abc".data).1 (by decide) (by decide) (by decide)).1,
    (mask_generic_shape "ab".data).2 (by decide)⟩

/-! ## Debug serializer (builder.go lines 182-331) -/

/-- `strings.HasPrefix` on character lists: does the first list start with
the second? -/
def startsWithChars : List Char → List Char → Bool
  | _, [] => true
  | [], _ :: _ => false
  | h :: hs, n :: ns => h = n && startsWithChars hs ns

/-- `strings.Contains hay needle` on character lists (needle passed
first). -/
def hasSub (needle : List Char) : List Char → Bool
  | [] => startsWithChars [] needle
  | c :: t => startsWithChars (c :: t) needle || hasSub needle t

/-- `isSensitiveField` (builder.go lines 314-324): the field name is
sensitive iff its lower-cased form contains the lower-cased form of some
vocabulary entry as a substring. -/
def isSensitiveField (fieldName : String) (sensitiveKeys : List String) : Bool :=
  sensitiveKeys.any
    (fun k => hasSub (k.data.map Char.toLower) (fieldName.data.map Char.toLower))

/-- `maskSensitiveData` lifted to `String` for use by the serializer. -/
def maskSensitiveDataS (s : String) : String := ⟨maskSensitiveData s.data⟩

/-- `writeIndent` (builder.go lines 327-331): two spaces per indent
level. -/
def writeIndent (indent : Nat) : String :=
  String.join (List.replicate indent "  ")

mutual
/-- The shape of a Go value as seen by the serializer's reflection:
references (possibly nil), structs, slices/arrays, maps with string-like
keys, and scalars carrying their `%v` text. -/
inductive DVal where
  | ptrNil : DVal
  | ptr : DVal → DVal
  | strct : DFields → DVal
  | arr : DList → DVal
  | kvmap : DMap → DVal
  | scalar : String → DVal
/-- Struct fields: name, exported flag (`CanInterface`), value. -/
inductive DFields where
  | nil : DFields
  | cons : String → Bool → DVal → DFields → DFields
/-- Slice or array elements. -/
inductive DList where
  | nil : DList
  | cons : DVal → DList → DList
/-- Map entries in iteration order. -/
inductive DMap where
  | nil : DMap
  | cons : String → DVal → DMap → DMap
end

mutual
/-- `fmt.Sprintf "%v"` on a value.  Pointers to composite values render
as `&` plus the pointee, the nil pointer renders as `<nil>`, and other
pointers render as a machine address, abstracted by the placeholder
`"0x0"`. -/
def fmtV : DVal → String
  | .ptrNil => "<nil>"
  | .ptr w =>
    match w with
    | .strct _ => "&" ++ fmtV w
    | .arr _ => "&" ++ fmtV w
    | .kvmap _ => "&" ++ fmtV w
    | _ => "0x0"
  | .strct fs => "\x7b" ++ fmtVFields fs ++ "\x7d"
  | .arr xs => "[" ++ fmtVList xs ++ "]"
  | .kvmap m => "map[" ++ fmtVMap m ++ "]"
  | .scalar s => s
/-- `%v` of a struct body: field values separated by spaces. -/
def fmtVFields : DFields → String
  | .nil => ""
  | .cons _ _ v .nil => fmtV v
  | .cons _ _ v (.cons n e w rest) => fmtV v ++ " " ++ fmtVFields (.cons n e w rest)
/-- `%v` of slice elements: separated by spaces. -/
def fmtVList : DList → String
  | .nil => ""
  | .cons v .nil => fmtV v
  | .cons v (.cons w rest) => fmtV v ++ " " ++ fmtVList (.cons w rest)
/-- `%v` of map entries: `key:value` separated by spaces. -/
def fmtVMap : DMap → String
  | .nil => ""
  | .cons k v .nil => k ++ ":" ++ fmtV v
  | .cons k v (.cons k2 w rest) => k ++ ":" ++ fmtV v ++ " " ++ fmtVMap (.cons k2 w rest)
end

mutual
/-- `debugValue` (builder.go lines 197-219): dereference pointers in a
loop, rendering `nil` at the current indent for a nil reference, then
dispatch on the kind. -/
def debugValue (v : DVal) (sensitiveKeys : List String) (indent : Nat) : String :=
  match v with
  | .ptrNil => writeIndent indent ++ "nil\n"
  | .ptr w => debugValue w sensitiveKeys indent
  | .strct fs => debugStruct fs sensitiveKeys indent
  | .arr xs => debugSlice xs sensitiveKeys indent
  | .kvmap m => debugMap m sensitiveKeys indent
  | .scalar s => writeIndent indent ++ s ++ "\n"
termination_by (sizeOf v, 0)
/-- `debugStruct` (builder.go lines 222-256): skip unexported fields;
mask sensitive field values (of any kind) inline; recurse for struct,
slice, array and map kinds; print every other kind inline with `%v`. -/
def debugStruct (fs : DFields) (sensitiveKeys : List String) (indent : Nat) : String :=
  match fs with
  | .nil => ""
  | .cons name exported v rest =>
    (if exported = false then "" else
      writeIndent indent ++ name ++ ": " ++
        (if isSensitiveField name sensitiveKeys then
          maskSensitiveDataS (fmtV v) ++ "\n"
        else
          match v with
          | .strct fs2 => "\n" ++ debugValue (.strct fs2) sensitiveKeys (indent + 1)
          | .arr xs2 => "\n" ++ debugValue (.arr xs2) sensitiveKeys (indent + 1)
          | .kvmap m2 => "\n" ++ debugValue (.kvmap m2) sensitiveKeys (indent + 1)
          | _ => fmtV v ++ "\n"))
      ++ debugStruct rest sensitiveKeys indent
termination_by (sizeOf fs, 0)
/-- `debugSlice` (builder.go lines 259-279): `[]` when empty, otherwise
one indexed line per element, recursing only for struct elements. -/
def debugSlice (xs : DList) (sensitiveKeys : List String) (indent : Nat) : String :=
  match xs with
  | .nil => writeIndent indent ++ "[]\n"
  | .cons v rest => debugSliceElems (.cons v rest) 0 sensitiveKeys indent
termination_by (sizeOf xs, 1)
/-- The element loop of `debugSlice`, carrying the element index. -/
def debugSliceElems (xs : DList) (i : Nat) (sensitiveKeys : List String) (indent : Nat) :
    String :=
  match xs with
  | .nil => ""
  | .cons v rest =>
    writeIndent indent ++ "[" ++ toString i ++ "]: " ++
      (match v with
       | .strct fs2 => "\n" ++ debugValue (.strct fs2) sensitiveKeys (indent + 1)
       | _ => fmtV v ++ "\n")
      ++ debugSliceElems rest (i + 1) sensitiveKeys indent
termination_by (sizeOf xs, 0)
/-- `debugMap` (builder.go lines 282-311): `{}` when empty, otherwise one
line per entry, masking values under sensitive keys and recursing only
for struct values. -/
def debugMap (m : DMap) (sensitiveKeys : List String) (indent : Nat) : String :=
  match m with
  | .nil => writeIndent indent ++ "{}\n"
  | .cons k v rest => debugMapEntries (.cons k v rest) sensitiveKeys indent
termination_by (sizeOf m, 1)
/-- The entry loop of `debugMap`. -/
def debugMapEntries (m : DMap) (sensitiveKeys : List String) (indent : Nat) : String :=
  match m with
  | .nil => ""
  | .cons k v rest =>
    writeIndent indent ++ k ++ ": " ++
      (if isSensitiveField k sensitiveKeys then
        maskSensitiveDataS (fmtV v) ++ "\n"
      else
        match v with
        | .strct fs2 => "\n" ++ debugValue (.strct fs2) sensitiveKeys (indent + 1)
        | _ => fmtV v ++ "\n")
      ++ debugMapEntries rest sensitiveKeys indent
termination_by (sizeOf m, 0)
end

/-- `Debug` (builder.go lines 185-194): a nil root renders as the bare
text `nil`; otherwise the fixed header line is followed by the recursive
rendering at indent `0`. -/
def Debug (config : Option DVal) (sensitiveKeys : List String) : String :=
  match config with
  | none => "nil"
  | some v => "Config Debug Output:\n" ++ debugValue v sensitiveKeys 0

/-- C3 (counterexample): `Debug` returns the bare text `nil` for an
absent root, without the fixed header line the claim requires. -/
theorem debug_nil_root_counterexample :
    Debug none [] = "nil" ∧ Debug none [] ≠ "Config Debug Output:\nnil\n" := by
  exact ⟨rfl, by decide⟩

/-- C3 (amended): for every sensitivity vocabulary, an absent (`nil`
interface) root renders as exactly `nil` with no header, while a nil
typed reference passed as the root renders as exactly the header line
followed by the line `nil`. -/
theorem debug_nil_root (sensitiveKeys : List String) :
    Debug none sensitiveKeys = "nil" ∧
      Debug (some .ptrNil) sensitiveKeys = "Config Debug Output:\nnil\n" := by
  refine ⟨rfl, ?_⟩
  simp only [Debug, debugValue, writeIndent]
  decide

/-- C8 (counterexample): a nil reference held in a struct field does not
render as the line `nil`; the field is printed inline through the default
formatter as `<nil>`, because `debugStruct` only recurses into struct,
slice, array and map kinds. -/
theorem debug_nil_field_counterexample :
    Debug (some (.strct (.cons "P" true .ptrNil .nil))) [] = "Config Debug Output:\nP: <nil>\n" ∧
      Debug (some (.strct (.cons "P" true .ptrNil .nil))) [] ≠ "Config Debug Output:\nP: nil\n" ∧
      Debug (some (.strct (.cons "P" true .ptrNil .nil))) [] ≠ "Config Debug Output:\nP: \n  nil\n" := by
  have h : Debug (some (.strct (.cons "P" true .ptrNil .nil))) []
      = "Config Debug Output:\nP: <nil>\n" := by
    simp only [Debug, debugValue, debugStruct, isSensitiveField, writeIndent, fmtV,
      List.any_nil, List.replicate, String.join]
    decide
  refine ⟨h, ?_, ?_⟩
  · rw [h]; decide
  · rw [h]; decide

/-- C8 (amended): reference chains are dereferenced transparently only
where `debugValue` itself is reached — in particular at the root — and a
nil reference there renders as `nil` at the current indent and stops; a
reference-typed struct field or sequence element is instead rendered
inline by the default formatter (`fmtV`), a nil one as `<nil>`. -/
theorem debug_reference_handling (v : DVal) (sensitiveKeys : List String) (indent : Nat) :
    debugValue (.ptr v) sensitiveKeys indent = debugValue v sensitiveKeys indent ∧
    debugValue .ptrNil sensitiveKeys indent = writeIndent indent ++ "nil\n" ∧
    fmtV .ptrNil = "<nil>" ∧
    (∀ name rest, isSensitiveField name sensitiveKeys = false →
      debugStruct (.cons name true .ptrNil rest) sensitiveKeys indent
        = writeIndent indent ++ name ++ ": " ++ (fmtV .ptrNil ++ "\n")
          ++ debugStruct rest sensitiveKeys indent) ∧
    (∀ i rest, debugSliceElems (.cons .ptrNil rest) i sensitiveKeys indent
        = writeIndent indent ++ "[" ++ toString i ++ "]: " ++ (fmtV .ptrNil ++ "\n")
          ++ debugSliceElems rest (i + 1) sensitiveKeys indent) := by
  refine ⟨by simp only [debugValue], by simp only [debugValue], rfl, ?_, ?_⟩
  · intro name rest hsens
    simp [debugStruct, hsens]
  · intro i rest
    simp [debugSliceElems]

/-- Witness for `debug_reference_handling` at a concrete scalar pointee,
empty vocabulary, field `P` and indent `0`. -/
theorem debug_reference_handling_witness :
    debugValue (.ptr (.scalar "7")) [] 0 = debugValue (.scalar "7") [] 0 ∧
      debugStruct (.cons "P" true .ptrNil .nil) [] 0
        = writeIndent 0 ++ "P" ++ ": " ++ (fmtV .ptrNil ++ "\n") ++ debugStruct .nil [] 0 :=
  ⟨(debug_reference_handling (.scalar "7") [] 0).1,
    (debug_reference_handling (.scalar "7") [] 0).2.2.2.1 "P" .nil (by decide)⟩

/-- C9: the serializer is total — it is a plain function into text and
every input shape has a defined rendering: absent root, nil reference,
scalar, empty sequence, empty mapping, fieldless record, unreadable
(unexported) fields, and the empty sensitive text. -/
theorem debug_total_every_shape (sensitiveKeys : List String) (indent : Nat) (s : String) :
    Debug none sensitiveKeys = "nil" ∧
    (∀ v, Debug (some v) sensitiveKeys
        = "Config Debug Output:\n" ++ debugValue v sensitiveKeys 0) ∧
    debugValue (.scalar s) sensitiveKeys indent = writeIndent indent ++ s ++ "\n" ∧
    debugValue .ptrNil sensitiveKeys indent = writeIndent indent ++ "nil\n" ∧
    debugValue (.arr .nil) sensitiveKeys indent = writeIndent indent ++ "[]\n" ∧
    debugValue (.kvmap .nil) sensitiveKeys indent = writeIndent indent ++ "{}\n" ∧
    debugValue (.strct .nil) sensitiveKeys indent = "" ∧
    (∀ name v rest, debugStruct (.cons name false v rest) sensitiveKeys indent
        = debugStruct rest sensitiveKeys indent) ∧
    maskSensitiveDataS "" = "" := by
  refine ⟨rfl, fun v => rfl, by simp only [debugValue], by simp only [debugValue],
    by simp only [debugValue, debugSlice], by simp only [debugValue, debugMap],
    by simp only [debugValue, debugStruct], ?_, rfl⟩
  intro name v rest
  cases v <;> simp [debugStruct]

/-! ## Populate traversal (builder.go lines 14-125) -/

mutual
/-- The shape of a Go value as seen by the populate traversal: struct
kind (`record`) versus every other kind (`scalar`).  Each shape carries
its population capability: `none` when the type does not implement the
`Config` interface (directly or through its address), otherwise the
result its `Populate()` returns. -/
inductive PShape where
  | scalar : Option (Except String Unit) → PShape
  | record : Option (Except String Unit) → PFields → PShape
/-- Struct fields of a record: name, settability (`CanSet`: exported and
addressable), shape. -/
inductive PFields where
  | nil : PFields
  | cons : String → Bool → PShape → PFields → PFields
end

/-- The population capability of a shape. -/
def shapePop : PShape → Option (Except String Unit)
  | .scalar p => p
  | .record p _ => p

/-- `implementsConfig` (builder.go lines 102-110). -/
def implementsConfig (s : PShape) : Bool :=
  (shapePop s).isSome

/-- `callPopulate` (builder.go lines 113-125): run the capability, or
fail when the shape does not implement `Config`. -/
def callPopulate (s : PShape) : Except String Unit :=
  match shapePop s with
  | some r => r
  | none => .error "field does not implement Config interface"

mutual
/-- `populateNestedConfigs` (builder.go lines 59-99): the root must be a
struct (after dereferencing); its fields are processed in declaration
order. -/
def populateNestedConfigs : PShape → Except String Unit
  | .scalar _ => .error "expected struct or pointer to struct"
  | .record _ fs => popFields fs
/-- The field loop of `populateNestedConfigs` (builder.go lines 70-96):
skip non-settable fields entirely; invoke the capability when present,
wrapping failures with the field name; recurse into struct-kind fields,
wrapping failures with the field name. -/
def popFields : PFields → Except String Unit
  | .nil => .ok ()
  | .cons name settable sh rest =>
    if settable = false then popFields rest
    else
      match (if implementsConfig sh then
              match callPopulate sh with
              | .error e => some ("failed to populate field " ++ name ++ ": " ++ e)
              | .ok _ => none
            else none) with
      | some msg => .error msg
      | none =>
        match sh with
        | .record _ _ =>
          match populateNestedConfigs sh with
          | .error e =>
            .error ("failed to populate nested struct in field " ++ name ++ ": " ++ e)
          | .ok _ => popFields rest
        | _ => popFields rest
end

/-- `PopulateAndValidate` (builder.go lines 37-56), with the two
collaborators — the environment loader and the validator — abstracted as
result values. -/
def PopulateAndValidate (envLoad validate : Except String Unit) (root : PShape) :
    Except String Unit :=
  match envLoad with
  | .error e => .error ("failed to load environment variables: " ++ e)
  | .ok _ =>
    match populateNestedConfigs root with
    | .error e => .error ("failed to populate nested configs: " ++ e)
    | .ok _ =>
      match validate with
      | .error e => .error ("config validation failed: " ++ e)
      | .ok _ => .ok ()

/-- Instrumented copy of `popFields`: identical control flow, but also
returns the trace of `Populate()` invocations as the list of name paths
on which `callPopulate` is reached, in invocation order. -/
def popFieldsT (path : List String) : PFields → List (List String) × Option String
  | .nil => ([], none)
  | .cons name settable sh rest =>
    if settable = false then popFieldsT path rest
    else
      match shapePop sh with
      | some (.error e) =>
        ([path ++ [name]], some ("failed to populate field " ++ name ++ ": " ++ e))
      | some (.ok _) =>
        match sh with
        | .record _ fs2 =>
          match popFieldsT (path ++ [name]) fs2 with
          | (tr, some e) =>
            ((path ++ [name]) :: tr,
              some ("failed to populate nested struct in field " ++ name ++ ": " ++ e))
          | (tr, none) =>
            match popFieldsT path rest with
            | (tr2, r) => ((path ++ [name]) :: (tr ++ tr2), r)
        | _ =>
          match popFieldsT path rest with
          | (tr2, r) => ((path ++ [name]) :: tr2, r)
      | none =>
        match sh with
        | .record _ fs2 =>
          match popFieldsT (path ++ [name]) fs2 with
          | (tr, some e) =>
            (tr, some ("failed to populate nested struct in field " ++ name ++ ": " ++ e))
          | (tr, none) =>
            match popFieldsT path rest with
            | (tr2, r) => (tr ++ tr2, r)
        | _ => popFieldsT path rest

/-- Instrumented copy of `populateNestedConfigs`. -/
def popNestedT (path : List String) : PShape → List (List String) × Option String
  | .scalar _ => ([], some "expected struct or pointer to struct")
  | .record _ fs => popFieldsT path fs

/-- Instrumented copy of `PopulateAndValidate`. -/
def PopulateAndValidateT (envLoad validate : Except String Unit) (root : PShape) :
    List (List String) × Option String :=
  match envLoad with
  | .error e => ([], some ("failed to load environment variables: " ++ e))
  | .ok _ =>
    match popNestedT [] root with
    | (tr, some e) => (tr, some ("failed to populate nested configs: " ++ e))
    | (tr, none) =>
      match validate with
      | .error e => (tr, some ("config validation failed: " ++ e))
      | .ok _ => (tr, none)

/-- One populate invocation as the spec describes it: the full name path
of the populated node, the field name, and the result its `Populate()`
returns. -/
abbrev PEntry := List String × String × Except String Unit

/-- Modelled from the spec: the declaration-order, depth-first, pre-order
enumeration of the populate invocations the traversal performs on a field
list — the field's own capability, if present, listed before the
invocations inside its nested record, followed by the later fields. -/
def specNodesF (path : List String) : PFields → List PEntry
  | .nil => []
  | .cons name settable sh rest =>
    if settable = false then specNodesF path rest
    else
      (match shapePop sh with
       | some r => [(path ++ [name], name, r)]
       | none => [])
      ++ (match sh with
          | .record _ fs2 => specNodesF (path ++ [name]) fs2
          | _ => [])
      ++ specNodesF path rest

/-- The paths a fail-fast run of the enumeration actually invokes: every
path up to and including the first failing entry. -/
def specTrace : List PEntry → List (List String)
  | [] => []
  | (p, _, .ok _) :: rest => p :: specTrace rest
  | (p, _, .error _) :: _ => [p]

/-- The first failing entry of the enumeration, as (field name, cause). -/
def specErr : List PEntry → Option (String × String)
  | [] => none
  | (_, _, .ok _) :: rest => specErr rest
  | (_, n, .error e) :: _ => some (n, e)

/-- The declared field names of a field list. -/
def fieldNames : PFields → List String
  | .nil => []
  | .cons n _ _ rest => n :: fieldNames rest

mutual
/-- Well-formedness mirroring Go structs: field names are distinct at
every record level. -/
def wfShape : PShape → Bool
  | .scalar _ => true
  | .record _ fs => wfFields fs
/-- Well-formedness of a field list. -/
def wfFields : PFields → Bool
  | .nil => true
  | .cons n _ sh rest =>
    !(fieldNames rest).contains n && wfShape sh && wfFields rest
end

theorem specTrace_append (a b : List PEntry) :
    specTrace (a ++ b) = match specErr a with
      | none => specTrace a ++ specTrace b
      | some _ => specTrace a := by
  induction a with
  | nil => rfl
  | cons x rest ih =>
    obtain ⟨p, n, r⟩ := x
    cases r with
    | ok u =>
      simp only [List.cons_append, specTrace, specErr, List.append_eq]
      rw [ih]
      cases specErr rest <;> simp
    | error e => simp [specTrace, specErr]

theorem specErr_append (a b : List PEntry) :
    specErr (a ++ b) = match specErr a with
      | none => specErr b
      | some x => some x := by
  induction a with
  | nil => rfl
  | cons x rest ih =>
    obtain ⟨p, n, r⟩ := x
    cases r with
    | ok u => simpa [specErr] using ih
    | error e => simp [specErr]

theorem specTrace_eq_take (l : List PEntry) :
    ∃ k, specTrace l = (l.map (fun x => x.1)).take k := by
  induction l with
  | nil => exact ⟨0, rfl⟩
  | cons x rest ih =>
    obtain ⟨p, n, r⟩ := x
    cases r with
    | ok u =>
      obtain ⟨k, hk⟩ := ih
      exact ⟨k + 1, by simp [specTrace, hk]⟩
    | error e => exact ⟨1, by simp [specTrace]⟩

theorem mem_of_mem_specTrace (l : List PEntry) (q : List String)
    (h : q ∈ specTrace l) : q ∈ l.map (fun x => x.1) := by
  obtain ⟨k, hk⟩ := specTrace_eq_take l
  rw [hk] at h
  exact List.mem_of_mem_take h

/-- The instrumented traversal is exactly the fail-fast run of the
spec-order enumeration: the trace is every enumerated path up to and
including the first failure, the run succeeds iff no enumerated
invocation fails, and on failure the error wraps the failing field's
name and cause (under some stack of context wrappers). -/
theorem popFieldsT_char (fs : PFields) (path : List String) :
    (popFieldsT path fs).1 = specTrace (specNodesF path fs) ∧
    (match specErr (specNodesF path fs) with
     | none => (popFieldsT path fs).2 = none
     | some x => ∃ w, (popFieldsT path fs).2
         = some (w ++ ("failed to populate field " ++ x.1 ++ ": " ++ x.2))) := by
  match fs with
  | .nil => exact ⟨rfl, rfl⟩
  | .cons name settable sh rest =>
    have ihRest := popFieldsT_char rest path
    cases settable with
    | false =>
      cases sh with
      | scalar popc =>
        simp only [popFieldsT, specNodesF, eq_self_iff_true, if_true]
        exact ihRest
      | record popc fs2 =>
        simp only [popFieldsT, specNodesF, eq_self_iff_true, if_true]
        exact ihRest
    | true =>
      cases sh with
      | scalar popc =>
        cases popc with
        | none =>
          simp only [popFieldsT, specNodesF, Bool.true_eq_false, if_false, shapePop,
            List.nil_append]
          exact ihRest
        | some r =>
          cases r with
          | error e =>
            have hpop : popFieldsT path (.cons name true (.scalar (some (.error e))) rest)
                = ([path ++ [name]],
                    some ("failed to populate field " ++ name ++ ": " ++ e)) := by
              simp only [popFieldsT, Bool.true_eq_false, if_false, shapePop]
            have hspec : specNodesF path (.cons name true (.scalar (some (.error e))) rest)
                = (path ++ [name], name, .error e) :: specNodesF path rest := by
              simp only [specNodesF, Bool.true_eq_false, if_false, shapePop,
                List.nil_append, List.cons_append, List.append_nil]
            rw [hpop, hspec]
            exact ⟨rfl, ⟨"", rfl⟩⟩
          | ok u =>
            cases u
            have hpop : popFieldsT path (.cons name true (.scalar (some (.ok ()))) rest)
                = ((path ++ [name]) :: (popFieldsT path rest).1,
                    (popFieldsT path rest).2) := by
              simp only [popFieldsT, Bool.true_eq_false, if_false, shapePop]
            have hspec : specNodesF path (.cons name true (.scalar (some (.ok ()))) rest)
                = (path ++ [name], name, .ok ()) :: specNodesF path rest := by
              simp only [specNodesF, Bool.true_eq_false, if_false, shapePop,
                List.nil_append, List.cons_append, List.append_nil]
            rw [hpop, hspec]
            exact ⟨by dsimp only [specTrace]; rw [ihRest.1], ihRest.2⟩
      | record popc fs2 =>
        have ihSub := popFieldsT_char fs2 (path ++ [name])
        rcases hsub : popFieldsT (path ++ [name]) fs2 with ⟨tr, r2⟩
        rw [hsub] at ihSub
        dsimp only at ihSub
        cases popc with
        | none =>
          have hspec : specNodesF path (.cons name true (.record none fs2) rest)
              = specNodesF (path ++ [name]) fs2 ++ specNodesF path rest := by
            simp only [specNodesF, Bool.true_eq_false, if_false, shapePop,
              List.nil_append]
          cases r2 with
          | none =>
            have hE : specErr (specNodesF (path ++ [name]) fs2) = none := by
              rcases hE2 : specErr (specNodesF (path ++ [name]) fs2) with _ | x
              · rfl
              · rw [hE2] at ihSub
                obtain ⟨w, hw⟩ := ihSub.2
                exact absurd hw (by simp)
            have hpop : popFieldsT path (.cons name true (.record none fs2) rest)
                = (tr ++ (popFieldsT path rest).1, (popFieldsT path rest).2) := by
              simp only [popFieldsT, Bool.true_eq_false, if_false, shapePop, hsub]
            rw [hpop, hspec]
            constructor
            · rw [specTrace_append, hE, ihSub.1, ihRest.1]
            · rw [specErr_append, hE]
              exact ihRest.2
          | some e =>
            rcases hE2 : specErr (specNodesF (path ++ [name]) fs2) with _ | x
            · rw [hE2] at ihSub
              exact absurd ihSub.2 (by simp)
            · rw [hE2] at ihSub
              obtain ⟨w, hw⟩ := ihSub.2
              have he : e = w ++ ("failed to populate field " ++ x.1 ++ ": " ++ x.2) := by
                simpa using hw
              have hpop : popFieldsT path (.cons name true (.record none fs2) rest)
                  = (tr, some ("failed to populate nested struct in field "
                      ++ name ++ ": " ++ e)) := by
                simp only [popFieldsT, Bool.true_eq_false, if_false, shapePop, hsub]
              rw [hpop, hspec]
              constructor
              · rw [specTrace_append, hE2, ihSub.1]
              · rw [specErr_append, hE2]
                refine ⟨"failed to populate nested struct in field " ++ name ++ ": " ++ w, ?_⟩
                rw [he]
                simp [String.append_assoc]
        | some r =>
          cases r with
          | error e =>
            have hpop : popFieldsT path (.cons name true (.record (some (.error e)) fs2) rest)
                = ([path ++ [name]],
                    some ("failed to populate field " ++ name ++ ": " ++ e)) := by
              simp only [popFieldsT, Bool.true_eq_false, if_false, shapePop]
            have hspec : specNodesF path (.cons name true (.record (some (.error e)) fs2) rest)
                = (path ++ [name], name, .error e)
                    :: (specNodesF (path ++ [name]) fs2 ++ specNodesF path rest) := by
              simp only [specNodesF, Bool.true_eq_false, if_false, shapePop,
                List.nil_append, List.cons_append]
            rw [hpop, hspec]
            exact ⟨rfl, ⟨"", rfl⟩⟩
          | ok u =>
            cases u
            have hspec : specNodesF path (.cons name true (.record (some (.ok ())) fs2) rest)
                = (path ++ [name], name, .ok ())
                    :: (specNodesF (path ++ [name]) fs2 ++ specNodesF path rest) := by
              simp only [specNodesF, Bool.true_eq_false, if_false, shapePop,
                List.nil_append, List.cons_append]
            cases r2 with
            | none =>
              have hE : specErr (specNodesF (path ++ [name]) fs2) = none := by
                rcases hE2 : specErr (specNodesF (path ++ [name]) fs2) with _ | x
                · rfl
                · rw [hE2] at ihSub
                  obtain ⟨w, hw⟩ := ihSub.2
                  exact absurd hw (by simp)
              have hpop : popFieldsT path (.cons name true (.record (some (.ok ())) fs2) rest)
                  = ((path ++ [name]) :: (tr ++ (popFieldsT path rest).1),
                      (popFieldsT path rest).2) := by
                simp only [popFieldsT, Bool.true_eq_false, if_false, shapePop, hsub]
              rw [hpop, hspec]
              constructor
              · dsimp only [specTrace]
                rw [specTrace_append, hE, ihSub.1, ihRest.1]
              · dsimp only [specErr]
                rw [specErr_append, hE]
                exact ihRest.2
            | some e =>
              rcases hE2 : specErr (specNodesF (path ++ [name]) fs2) with _ | x
              · rw [hE2] at ihSub
                exact absurd ihSub.2 (by simp)
              · rw [hE2] at ihSub
                obtain ⟨w, hw⟩ := ihSub.2
                have he : e = w ++ ("failed to populate field " ++ x.1 ++ ": " ++ x.2) := by
                  simpa using hw
                have hpop : popFieldsT path
                      (.cons name true (.record (some (.ok ())) fs2) rest)
                    = ((path ++ [name]) :: tr,
                        some ("failed to populate nested struct in field "
                          ++ name ++ ": " ++ e)) := by
                  simp only [popFieldsT, Bool.true_eq_false, if_false, shapePop, hsub]
                rw [hpop, hspec]
                constructor
                · dsimp only [specTrace]
                  rw [specTrace_append, hE2, ihSub.1]
                · dsimp only [specErr]
                  rw [specErr_append, hE2]
                  refine ⟨"failed to populate nested struct in field " ++ name ++ ": " ++ w, ?_⟩
                  rw [he]
                  simp [String.append_assoc]

/-- The instrumented traversal agrees with the transliterated one: the
second component of `popFieldsT` is exactly the error `popFields`
returns. -/
theorem popFields_agree (fs : PFields) (path : List String) :
    popFields fs = (match (popFieldsT path fs).2 with
      | none => Except.ok ()
      | some e => Except.error e) := by
  match fs with
  | .nil => rfl
  | .cons name settable sh rest =>
    have ihRest := popFields_agree rest path
    cases settable with
    | false =>
      cases sh with
      | scalar popc =>
        simp only [popFields, popFieldsT, eq_self_iff_true, if_true]
        exact ihRest
      | record popc fs2 =>
        simp only [popFields, popFieldsT, eq_self_iff_true, if_true]
        exact ihRest
    | true =>
      cases sh with
      | scalar popc =>
        cases popc with
        | none =>
          simp only [popFields, popFieldsT, Bool.true_eq_false, Bool.false_eq_true, if_false,
            implementsConfig, callPopulate, shapePop, Option.isSome, if_true]
          exact ihRest
        | some r =>
          cases r with
          | error e =>
            simp only [popFields, popFieldsT, Bool.true_eq_false, Bool.false_eq_true, if_false,
              implementsConfig, callPopulate, shapePop, Option.isSome, if_true]
          | ok u =>
            cases u
            simp only [popFields, popFieldsT, Bool.true_eq_false, Bool.false_eq_true, if_false,
              implementsConfig, callPopulate, shapePop, Option.isSome, if_true]
            exact ihRest
      | record popc fs2 =>
        have ihSub := popFields_agree fs2 (path ++ [name])
        rcases hsub : popFieldsT (path ++ [name]) fs2 with ⟨tr, r2⟩
        rw [hsub] at ihSub
        cases popc with
        | none =>
          have hnest : populateNestedConfigs (.record none fs2) = popFields fs2 := rfl
          cases r2 with
          | none =>
            have ihOk : popFields fs2 = Except.ok () := ihSub
            have hpop : popFieldsT path (.cons name true (.record none fs2) rest)
                = (tr ++ (popFieldsT path rest).1, (popFieldsT path rest).2) := by
              simp only [popFieldsT, Bool.true_eq_false, if_false, shapePop, hsub]
            rw [hpop]
            simp only [popFields, Bool.true_eq_false, Bool.false_eq_true, if_false,
              implementsConfig, callPopulate, shapePop, Option.isSome, hnest, ihOk]
            exact ihRest
          | some e =>
            have ihErr : popFields fs2 = Except.error e := ihSub
            have hpop : popFieldsT path (.cons name true (.record none fs2) rest)
                = (tr, some ("failed to populate nested struct in field "
                    ++ name ++ ": " ++ e)) := by
              simp only [popFieldsT, Bool.true_eq_false, if_false, shapePop, hsub]
            rw [hpop]
            simp only [popFields, Bool.true_eq_false, Bool.false_eq_true, if_false,
              implementsConfig, callPopulate, shapePop, Option.isSome, if_true, hnest, ihErr]
        | some r =>
          cases r with
          | error e =>
            simp only [popFields, popFieldsT, Bool.true_eq_false, Bool.false_eq_true, if_false,
              implementsConfig, callPopulate, shapePop, Option.isSome, if_true]
          | ok u =>
            cases u
            have hnest : populateNestedConfigs (.record (some (.ok ())) fs2)
                = popFields fs2 := rfl
            cases r2 with
            | none =>
              have ihOk : popFields fs2 = Except.ok () := ihSub
              have hpop : popFieldsT path (.cons name true (.record (some (.ok ())) fs2) rest)
                  = ((path ++ [name]) :: (tr ++ (popFieldsT path rest).1),
                      (popFieldsT path rest).2) := by
                simp only [popFieldsT, Bool.true_eq_false, if_false, shapePop, hsub]
              rw [hpop]
              simp only [popFields, Bool.true_eq_false, Bool.false_eq_true, if_false,
                implementsConfig, callPopulate, shapePop, Option.isSome, hnest, ihOk]
              exact ihRest
            | some e =>
              have ihErr : popFields fs2 = Except.error e := ihSub
              have hpop : popFieldsT path
                    (.cons name true (.record (some (.ok ())) fs2) rest)
                  = ((path ++ [name]) :: tr,
                      some ("failed to populate nested struct in field "
                        ++ name ++ ": " ++ e)) := by
                simp only [popFieldsT, Bool.true_eq_false, if_false, shapePop, hsub]
              rw [hpop]
              simp only [popFields, Bool.true_eq_false, Bool.false_eq_true, if_false,
                implementsConfig, callPopulate, shapePop, Option.isSome, if_true, hnest, ihErr]

/-- `PopulateAndValidate` agrees with its instrumented copy. -/
theorem PopulateAndValidate_agree (envLoad validate : Except String Unit) (root : PShape) :
    PopulateAndValidate envLoad validate root
      = (match (PopulateAndValidateT envLoad validate root).2 with
        | none => Except.ok ()
        | some e => Except.error e) := by
  cases envLoad with
  | error e => rfl
  | ok u =>
    cases u
    cases root with
    | scalar popc => rfl
    | record popc fs =>
      have hagree := popFields_agree fs []
      simp only [PopulateAndValidate, PopulateAndValidateT, populateNestedConfigs,
        popNestedT]
      rcases hrun : popFieldsT [] fs with ⟨tr, r⟩
      rw [hrun] at hagree
      dsimp only at hagree
      cases r with
      | none =>
        rw [hagree]
        cases validate <;> rfl
      | some e =>
        rw [hagree]

theorem contains_name_false_of_not_mem (l : List String) (a : String) (h : a ∉ l) :
    l.contains a = false := by
  rw [List.contains_eq_any_beq]
  simp only [List.any_eq_false]
  intro x hx
  simp only [beq_iff_eq]
  intro he; exact h (he ▸ hx)

theorem not_mem_of_contains_name_false (l : List String) (a : String)
    (h : l.contains a = false) : a ∉ l := by
  intro hm
  rw [List.contains_eq_any_beq] at h
  simp only [List.any_eq_false] at h
  exact absurd (by simp : (a == a) = true) (by simpa using h a hm)

/-- Every enumerated path extends the current path by one of the listed
field names. -/
theorem specNodesF_path_shape (fs : PFields) (path q : List String)
    (hq : q ∈ (specNodesF path fs).map (fun x => x.1)) :
    ∃ n t, q = path ++ n :: t ∧ n ∈ fieldNames fs := by
  match fs with
  | .nil => simp [specNodesF] at hq
  | .cons name settable sh rest =>
    cases settable with
    | false =>
      cases sh with
      | scalar p2 =>
        simp only [specNodesF, eq_self_iff_true, if_true] at hq
        obtain ⟨n, t, hqe, hnm⟩ := specNodesF_path_shape rest path q hq
        exact ⟨n, t, hqe, by simp [fieldNames, hnm]⟩
      | record p2 fs2 =>
        simp only [specNodesF, eq_self_iff_true, if_true] at hq
        obtain ⟨n, t, hqe, hnm⟩ := specNodesF_path_shape rest path q hq
        exact ⟨n, t, hqe, by simp [fieldNames, hnm]⟩
    | true =>
      cases sh with
      | scalar p2 =>
        cases p2 with
        | none =>
          simp only [specNodesF, Bool.true_eq_false, if_false, shapePop,
            List.nil_append] at hq
          obtain ⟨n, t, hqe, hnm⟩ := specNodesF_path_shape rest path q hq
          exact ⟨n, t, hqe, by simp [fieldNames, hnm]⟩
        | some r =>
          simp only [specNodesF, Bool.true_eq_false, if_false, shapePop,
            List.nil_append, List.append_nil, List.cons_append, List.map_cons,
            List.mem_cons] at hq
          rcases hq with hq1 | hq2
          · exact ⟨name, [], hq1, by simp [fieldNames]⟩
          · obtain ⟨n, t, hqe, hnm⟩ := specNodesF_path_shape rest path q hq2
            exact ⟨n, t, hqe, by simp [fieldNames, hnm]⟩
      | record p2 fs2 =>
        cases p2 with
        | none =>
          simp only [specNodesF, Bool.true_eq_false, if_false, shapePop,
            List.nil_append, List.map_append, List.mem_append] at hq
          rcases hq with hq1 | hq2
          · obtain ⟨n2, t2, hqe, hnm2⟩ := specNodesF_path_shape fs2 (path ++ [name]) q hq1
            refine ⟨name, n2 :: t2, ?_, by simp [fieldNames]⟩
            rw [hqe]; simp
          · obtain ⟨n, t, hqe, hnm⟩ := specNodesF_path_shape rest path q hq2
            exact ⟨n, t, hqe, by simp [fieldNames, hnm]⟩
        | some r =>
          simp only [specNodesF, Bool.true_eq_false, if_false, shapePop,
            List.cons_append, List.nil_append, List.map_cons, List.mem_cons,
            List.map_append, List.mem_append] at hq
          rcases hq with hq1 | hq2 | hq3
          · exact ⟨name, [], hq1, by simp [fieldNames]⟩
          · obtain ⟨n2, t2, hqe, hnm2⟩ := specNodesF_path_shape fs2 (path ++ [name]) q hq2
            refine ⟨name, n2 :: t2, ?_, by simp [fieldNames]⟩
            rw [hqe]; simp
          · obtain ⟨n, t, hqe, hnm⟩ := specNodesF_path_shape rest path q hq3
            exact ⟨n, t, hqe, by simp [fieldNames, hnm]⟩

/-- With distinct field names at every record level (as Go guarantees),
the enumerated paths are pairwise distinct. -/
theorem specNodesF_nodup (fs : PFields) (path : List String) (hwf : wfFields fs = true) :
    ((specNodesF path fs).map (fun x => x.1)).Nodup := by
  match fs with
  | .nil => simp [specNodesF]
  | .cons name settable sh rest =>
    have hwf3 := hwf
    simp only [wfFields, Bool.and_eq_true, Bool.not_eq_true',
      List.contains_eq_any_beq, List.any_eq_false, beq_iff_eq] at hwf3
    obtain ⟨⟨hname, hwsh⟩, hwrest⟩ := hwf3
    have hnotmem : name ∉ fieldNames rest := fun hm => hname name hm rfl
    have ihRest := specNodesF_nodup rest path hwrest
    cases settable with
    | false =>
      cases sh with
      | scalar p2 =>
        simp only [specNodesF, eq_self_iff_true, if_true]
        exact ihRest
      | record p2 fs2 =>
        simp only [specNodesF, eq_self_iff_true, if_true]
        exact ihRest
    | true =>
      cases sh with
      | scalar p2 =>
        cases p2 with
        | none =>
          simp only [specNodesF, Bool.true_eq_false, if_false, shapePop, List.nil_append]
          exact ihRest
        | some r =>
          simp only [specNodesF, Bool.true_eq_false, if_false, shapePop, List.nil_append,
            List.append_nil, List.cons_append, List.map_cons]
          rw [List.nodup_cons]
          refine ⟨?_, ihRest⟩
          intro hmem
          obtain ⟨n, t, heq, hnm⟩ := specNodesF_path_shape rest path _ hmem
          have : [name] = n :: t := List.append_cancel_left heq
          have hn : n = name := by injection this with h1 h2; exact h1.symm
          exact hnotmem (hn ▸ hnm)
      | record p2 fs2 =>
        have hwf2 : wfFields fs2 = true := by simpa [wfShape] using hwsh
        have ihSub := specNodesF_nodup fs2 (path ++ [name]) hwf2
        have hdisj : ∀ q, q ∈ (specNodesF (path ++ [name]) fs2).map (fun x => x.1) →
            q ∈ (specNodesF path rest).map (fun x => x.1) → False := by
          intro q hq1 hq2
          obtain ⟨n2, t2, heq2, hnm2⟩ := specNodesF_path_shape fs2 (path ++ [name]) q hq1
          obtain ⟨n, t, heq, hnm⟩ := specNodesF_path_shape rest path q hq2
          rw [heq2] at heq
          have hflat : path ++ (name :: n2 :: t2) = path ++ n :: t := by
            simpa using heq
          have : name :: n2 :: t2 = n :: t := List.append_cancel_left hflat
          have hn : n = name := by injection this with h1 h2; exact h1.symm
          exact hnotmem (hn ▸ hnm)
        have hnodupApp :
            (((specNodesF (path ++ [name]) fs2) ++ specNodesF path rest).map
              (fun x => x.1)).Nodup := by
          rw [List.map_append, List.nodup_append]
          exact ⟨ihSub, ihRest, hdisj⟩
        cases p2 with
        | none =>
          simp only [specNodesF, Bool.true_eq_false, if_false, shapePop, List.nil_append]
          rw [List.map_append]
          rw [List.map_append] at hnodupApp
          exact hnodupApp
        | some r =>
          simp only [specNodesF, Bool.true_eq_false, if_false, shapePop, List.nil_append,
            List.cons_append, List.map_cons]
          rw [List.nodup_cons]
          refine ⟨?_, hnodupApp⟩
          intro hmem
          rw [List.map_append, List.mem_append] at hmem
          rcases hmem with hm1 | hm2
          · obtain ⟨n2, t2, heq2, hnm2⟩ := specNodesF_path_shape fs2 (path ++ [name]) _ hm1
            have hflat : path ++ [name] = path ++ (name :: n2 :: t2) := by
              simp only [List.append_assoc, List.singleton_append, List.cons_append,
                List.nil_append] at heq2
              exact heq2
            have : [name] = name :: n2 :: t2 := List.append_cancel_left hflat
            injection this with h1 h2
            exact absurd h2 (by simp)
          · obtain ⟨n, t, heq, hnm⟩ := specNodesF_path_shape rest path _ hm2
            have : [name] = n :: t := List.append_cancel_left heq
            have hn : n = name := by injection this with h1 h2; exact h1.symm
            exact hnotmem (hn ▸ hnm)

theorem specTrace_eq_map (l : List PEntry) (hE : specErr l = none) :
    specTrace l = l.map (fun x => x.1) := by
  induction l with
  | nil => rfl
  | cons x rest ih =>
    obtain ⟨p, n, r⟩ := x
    cases r with
    | ok u =>
      simp only [specErr] at hE
      simp only [specTrace, List.map_cons, ih hE]
    | error e => simp [specErr] at hE

/-- When the first `k` enumerated invocations succeed and the `k`-th
fails, the failure is the first one, and the fail-fast trace is exactly
the first `k + 1` paths. -/
theorem specErr_of_first_error (k : Nat) (l : List PEntry) (p : List String) (n e : String)
    (hpre : ∀ x ∈ l.take k, x.2.2 = Except.ok ())
    (hk : l.get? k = some (p, n, Except.error e)) :
    specErr l = some (n, e) ∧ specTrace l = (l.take (k + 1)).map (fun x => x.1) := by
  induction k generalizing l with
  | zero =>
    cases l with
    | nil => simp at hk
    | cons x rest =>
      simp only [List.get?] at hk
      injection hk with hx
      subst hx
      simp [specErr, specTrace]
  | succ k ih =>
    cases l with
    | nil => simp at hk
    | cons x rest =>
      obtain ⟨px, nx, rx⟩ := x
      have hx : rx = Except.ok () := by
        have := hpre (px, nx, rx) (by simp [List.take_succ_cons])
        simpa using this
      subst hx
      have hpre2 : ∀ x ∈ rest.take k, x.2.2 = Except.ok () := by
        intro x hxm
        exact hpre x (by simp [List.take_succ_cons, hxm])
      have hk2 : rest.get? k = some (p, n, Except.error e) := by
        simpa [List.get?] using hk
      obtain ⟨h1, h2⟩ := ih rest hpre2 hk2
      refine ⟨by simpa [specErr] using h1, ?_⟩
      simp only [specTrace, List.take_succ_cons, List.map_cons, h2]

instance : DecidableEq (Except String Unit) := fun x y =>
  match x, y with
  | .ok (), .ok () => isTrue rfl
  | .error a, .error b =>
    if h : a = b then isTrue (by rw [h])
    else isFalse (fun hc => h (by injection hc))
  | .ok _, .error _ => isFalse (fun hc => Except.noConfusion hc)
  | .error _, .ok _ => isFalse (fun hc => Except.noConfusion hc)

/-- The sensible traversal examples used as witnesses. -/
def exRoot : PFields := .cons "A" true (.scalar (some (.ok ()))) .nil

def exTree : PFields :=
  .cons "A" true (.record (some (.ok ())) (.cons "B" true (.scalar (some (.ok ()))) .nil))
    (.cons "C" true (.scalar (some (.ok ()))) .nil)

def exFail : PFields :=
  .cons "A" true (.scalar (some (.ok ())))
    (.cons "B" true (.scalar (some (.error "boom")))
      (.cons "C" true (.scalar (some (.ok ()))) .nil))

def exC1 : PFields :=
  .cons "A" false (.record none (.cons "B" true (.scalar (some (.ok ()))) .nil)) .nil

/-- Modelled from the spec: the populate invocations the traversal would
perform if non-settable fields were skipped only for the capability
check but still recursed into when their shape is a record (spec
section 4.1). -/
def specClaimTraceF (path : List String) : PFields → List (List String)
  | .nil => []
  | .cons name settable sh rest =>
    (if settable && implementsConfig sh then [path ++ [name]] else [])
      ++ (match sh with
          | .record _ fs2 => specClaimTraceF (path ++ [name]) fs2
          | _ => [])
      ++ specClaimTraceF path rest

/-- C1 (counterexample): a non-settable record field containing a
populatable descendant.  The claim's reading (recurse anyway) would
populate `A.B`, but the code's `continue` skips the field entirely: the
actual run populates nothing and succeeds vacuously. -/
theorem populate_unsettable_counterexample :
    specClaimTraceF [] exC1 = [["A", "B"]] ∧
      popNestedT [] (.record none exC1) = ([], none) ∧
      (popNestedT [] (.record none exC1)).1 ≠ specClaimTraceF [] exC1 := by
  refine ⟨by decide, by decide, by decide⟩

/-- C1 (amended): during the populate traversal, a struct field the
engine cannot mutate (not settable) is skipped entirely — no capability
check and no recursion into it even when it is a record; the traversal
continues with the remaining fields exactly as if the field were absent. -/
theorem populate_skips_unsettable_entirely (path : List String) (name : String)
    (sh : PShape) (rest : PFields) :
    popFieldsT path (.cons name false sh rest) = popFieldsT path rest ∧
    popFields (.cons name false sh rest) = popFields rest ∧
    specNodesF path (.cons name false sh rest) = specNodesF path rest := by
  cases sh with
  | scalar p =>
    exact ⟨by simp only [popFieldsT, eq_self_iff_true, if_true],
      by simp only [popFields, eq_self_iff_true, if_true],
      by simp only [specNodesF, eq_self_iff_true, if_true]⟩
  | record p fs2 =>
    exact ⟨by simp only [popFieldsT, eq_self_iff_true, if_true],
      by simp only [popFields, eq_self_iff_true, if_true],
      by simp only [specNodesF, eq_self_iff_true, if_true]⟩

/-- C2: `PopulateAndValidate` never invokes the population capability on
the root value: its outcome and trace are unchanged under any change of
the root record's own capability, and every traced invocation targets a
field of some record — a nonempty path — never the root itself. -/
theorem populate_never_calls_root (envLoad validate : Except String Unit)
    (rp rp2 : Option (Except String Unit)) (fs : PFields) :
    PopulateAndValidateT envLoad validate (.record rp fs)
        = PopulateAndValidateT envLoad validate (.record rp2 fs) ∧
    (∀ q ∈ (PopulateAndValidateT envLoad validate (.record rp fs)).1, q ≠ []) := by
  have hroot : ∀ rp3 : Option (Except String Unit),
      popNestedT [] (.record rp3 fs) = popFieldsT [] fs := fun rp3 => rfl
  constructor
  · simp only [PopulateAndValidateT, hroot]
  · intro q hq
    cases envLoad with
    | error e => simp [PopulateAndValidateT] at hq
    | ok u =>
      cases u
      have htr : (PopulateAndValidateT (.ok ()) validate (.record rp fs)).1
          = (popFieldsT [] fs).1 := by
        simp only [PopulateAndValidateT, hroot]
        rcases hrun : popFieldsT [] fs with ⟨tr, r⟩
        cases r with
        | none => cases validate <;> rfl
        | some e => rfl
      rw [htr] at hq
      have hq2 := mem_of_mem_specTrace _ _ ((popFieldsT_char fs []).1 ▸ hq)
      obtain ⟨n, t, heq, hnm⟩ := specNodesF_path_shape fs [] q hq2
      rw [heq]
      simp

/-- Witness for `populate_never_calls_root` on a one-field record with a
populated root capability. -/
theorem populate_never_calls_root_witness :
    PopulateAndValidateT (.ok ()) (.ok ()) (.record (some (.ok ())) exRoot)
        = PopulateAndValidateT (.ok ()) (.ok ()) (.record none exRoot) ∧
      ["A"] ≠ ([] : List String) :=
  ⟨(populate_never_calls_root (.ok ()) (.ok ()) (some (.ok ())) none exRoot).1,
    (populate_never_calls_root (.ok ()) (.ok ()) (some (.ok ())) none exRoot).2
      ["A"] (by decide)⟩

/-- C5: population is fail-fast.  When the first `k` invocations of the
declaration-order enumeration succeed and the `k`-th fails, the engine
returns an error wrapping that field's name and cause, the transliterated
`PopulateAndValidate` returns exactly that error, and the invocation
trace stops at the failing field — no later field anywhere in the tree is
populated. -/
theorem populate_fail_fast (validate : Except String Unit)
    (rp : Option (Except String Unit)) (fs : PFields) (k : Nat)
    (p : List String) (n e : String)
    (hpre : ∀ x ∈ (specNodesF [] fs).take k, x.2.2 = Except.ok ())
    (hk : (specNodesF [] fs).get? k = some (p, n, Except.error e)) :
    (∃ w, (PopulateAndValidateT (.ok ()) validate (.record rp fs)).2
        = some ("failed to populate nested configs: "
            ++ (w ++ ("failed to populate field " ++ n ++ ": " ++ e)))
      ∧ PopulateAndValidate (.ok ()) validate (.record rp fs)
          = Except.error ("failed to populate nested configs: "
              ++ (w ++ ("failed to populate field " ++ n ++ ": " ++ e)))) ∧
    (PopulateAndValidateT (.ok ()) validate (.record rp fs)).1
      = ((specNodesF [] fs).take (k + 1)).map (fun x => x.1) := by
  have hchar := popFieldsT_char fs []
  obtain ⟨hE, hTr⟩ := specErr_of_first_error k (specNodesF [] fs) p n e hpre hk
  rw [hE] at hchar
  obtain ⟨w, hw⟩ := hchar.2
  have hroot : popNestedT [] (.record rp fs) = popFieldsT [] fs := rfl
  rcases hrun : popFieldsT [] fs with ⟨tr, r⟩
  rw [hrun] at hw
  have hr : r = some (w ++ ("failed to populate field " ++ n ++ ": " ++ e)) := hw
  subst hr
  have hT : PopulateAndValidateT (.ok ()) validate (.record rp fs)
      = (tr, some ("failed to populate nested configs: "
          ++ (w ++ ("failed to populate field " ++ n ++ ": " ++ e)))) := by
    simp only [PopulateAndValidateT, hroot, hrun]
  refine ⟨⟨w, by rw [hT], ?_⟩, ?_⟩
  · rw [PopulateAndValidate_agree, hT]
  · rw [hT]
    have htr2 : tr = specTrace (specNodesF [] fs) := by
      have := hchar.1
      rw [hrun] at this
      exact this
    rw [htr2, hTr]

/-- Witness for `populate_fail_fast`: the second of three fields fails
with cause `boom`; the third is never populated. -/
theorem populate_fail_fast_witness :
    (∃ w, (PopulateAndValidateT (.ok ()) (.ok ()) (.record none exFail)).2
        = some ("failed to populate nested configs: "
            ++ (w ++ ("failed to populate field " ++ "B" ++ ": " ++ "boom")))
      ∧ PopulateAndValidate (.ok ()) (.ok ()) (.record none exFail)
          = Except.error ("failed to populate nested configs: "
              ++ (w ++ ("failed to populate field " ++ "B" ++ ": " ++ "boom")))) ∧
    (PopulateAndValidateT (.ok ()) (.ok ()) (.record none exFail)).1
      = ((specNodesF [] exFail).take 2).map (fun x => x.1) :=
  populate_fail_fast (.ok ()) none exFail 1 ["B"] "B" "boom" (by decide) (by decide)

/-- C7: for every input tree the populate traversal visits fields in
declaration order, depth-first and pre-order — on a run with no failures
the invocation trace is exactly the spec-order enumeration `specNodesF`,
which lists a field's own invocation before those inside its nested
record — and, with distinct field names at every level, each node is
populated at most once (the trace has no duplicates). -/
theorem populate_preorder_at_most_once (rp : Option (Except String Unit))
    (fs : PFields) (hwf : wfFields fs = true) :
    ((popNestedT [] (.record rp fs)).2 = none →
      (popNestedT [] (.record rp fs)).1 = (specNodesF [] fs).map (fun x => x.1)) ∧
    (popNestedT [] (.record rp fs)).1.Nodup := by
  have hchar := popFieldsT_char fs []
  have hroot : popNestedT [] (.record rp fs) = popFieldsT [] fs := rfl
  rw [hroot]
  constructor
  · intro hnone
    rw [hchar.1]
    have hE : specErr (specNodesF [] fs) = none := by
      rcases hE2 : specErr (specNodesF [] fs) with _ | x
      · rfl
      · rw [hE2] at hchar
        obtain ⟨w, hw⟩ := hchar.2
        rw [hnone] at hw
        simp at hw
    exact specTrace_eq_map _ hE
  · rw [hchar.1]
    obtain ⟨k, hk⟩ := specTrace_eq_take (specNodesF [] fs)
    rw [hk]
    exact List.Nodup.sublist (List.take_sublist _ _) (specNodesF_nodup fs [] hwf)

/-- Witness for `populate_preorder_at_most_once` on a two-level tree:
the trace is `A`, `A.B`, `C` — pre-order, each node once. -/
theorem populate_preorder_witness :
    (popNestedT [] (.record none exTree)).1 = (specNodesF [] exTree).map (fun x => x.1) ∧
      (popNestedT [] (.record none exTree)).1.Nodup :=
  ⟨(populate_preorder_at_most_once none exTree (by decide)).1 (by decide),
    (populate_preorder_at_most_once none exTree (by decide)).2⟩

/-! ## Environment cascade (`LoadEnvVars`, builder.go lines 127-180) -/

/-- `formatEnvLoadErr` (builder.go lines 174-180). -/
def formatEnvLoadErr (fileName err : String) : String :=
  "error occurred while trying to load env file: " ++ fileName
    ++ ". Error message: " ++ err

/-- `filepath.Join` for one directory and one file name, modelled as
slash concatenation (adequate for a nonempty, clean base directory). -/
def joinPath (dir name : String) : String := dir ++ "/" ++ name

/-- One step of the cascade: if `stat` reports the file present, `load`
it (tracing the attempt); a load failure is formatted with the file
name. -/
def tryLoad (stat : String → Bool) (load : String → Except String Unit) (f : String) :
    List String × Option String :=
  if stat f then
    match load f with
    | .error e => ([f], some (formatEnvLoadErr f e))
    | .ok _ => ([f], none)
  else ([], none)

/-- `LoadEnvVars` (builder.go lines 131-172), with the filesystem `stat`
and the dotenv `load` passed in as collaborators.  The four cascade files
are tried in order; `.env.local` is skipped when the environment is
`test`; the first failure aborts.  Returns the list of files actually
loaded (in order) with the error, if any. -/
def LoadEnvVars (env appBaseDir : String) (stat : String → Bool)
    (load : String → Except String Unit) : List String × Option String :=
  let s1 := tryLoad stat load (joinPath appBaseDir (".env." ++ env ++ ".local"))
  match s1.2 with
  | some e => (s1.1, some e)
  | none =>
    let s2 := if env ≠ "test" then tryLoad stat load (joinPath appBaseDir ".env.local")
      else ([], none)
    match s2.2 with
    | some e => (s1.1 ++ s2.1, some e)
    | none =>
      let s3 := tryLoad stat load (joinPath appBaseDir (".env." ++ env))
      match s3.2 with
      | some e => (s1.1 ++ s2.1 ++ s3.1, some e)
      | none =>
        let s4 := tryLoad stat load (joinPath appBaseDir ".env")
        (s1.1 ++ s2.1 ++ s3.1 ++ s4.1, s4.2)

theorem tryLoad_ok (stat : String → Bool) (load : String → Except String Unit)
    (hload : ∀ f, load f = .ok ()) (f : String) :
    tryLoad stat load f = (if stat f then [f] else [], none) := by
  rw [tryLoad]
  cases hstat : stat f with
  | true => simp [hload f]
  | false => simp

/-- With every load succeeding, the cascade loads exactly the files that
exist, in cascade order, skipping `.env.local` in the `test`
environment. -/
theorem LoadEnvVars_ok (env dir : String) (stat : String → Bool)
    (load : String → Except String Unit) (hload : ∀ f, load f = .ok ()) :
    LoadEnvVars env dir stat load
      = ((if stat (joinPath dir (".env." ++ env ++ ".local"))
            then [joinPath dir (".env." ++ env ++ ".local")] else [])
          ++ (if env ≠ "test" ∧ stat (joinPath dir ".env.local") = true
              then [joinPath dir ".env.local"] else [])
          ++ (if stat (joinPath dir (".env." ++ env))
              then [joinPath dir (".env." ++ env)] else [])
          ++ (if stat (joinPath dir ".env") then [joinPath dir ".env"] else []),
        none) := by
  rw [LoadEnvVars]
  simp only [tryLoad_ok stat load hload]
  by_cases henv : env = "test"
  · subst henv
    simp only [ne_eq, eq_self_iff_true, not_true, if_false]
    split_ifs <;> simp_all
  · simp only [ne_eq, henv, not_false_iff, if_true]
    split_ifs <;> simp_all

theorem joinPath_inj_name (dir a b : String) (h : a ≠ b) :
    joinPath dir a ≠ joinPath dir b := by
  intro he
  apply h
  have hd : (dir ++ "/").data ++ a.data = (dir ++ "/").data ++ b.data := by
    have := congrArg String.data he
    simpa [joinPath, String.append_assoc] using this
  have hab : a.data = b.data := List.append_cancel_left hd
  cases a; cases b
  exact congrArg String.mk hab

theorem mem_ite_singleton (c : Prop) [Decidable c] (hc : c) (x : String) :
    x ∈ (if c then [x] else []) := by simp [hc]

/-- C10: when the environment name is `test`, `LoadEnvVars` never loads
the generic `.env.local` file even if it exists, while the other three
cascade files (`.env.test.local`, `.env.test`, `.env`) still load when
present; for every other environment name, `.env.local` loads when
present.  (Loads are assumed to succeed; a parse failure earlier in the
cascade aborts the rest.) -/
theorem loadenv_test_skips_generic_local (dir : String) (stat : String → Bool)
    (load : String → Except String Unit) (hload : ∀ f, load f = .ok ()) :
    (joinPath dir ".env.local" ∉ (LoadEnvVars "test" dir stat load).1) ∧
    (∀ nm, nm ∈ [".env.test.local", ".env.test", ".env"] →
      stat (joinPath dir nm) = true →
      joinPath dir nm ∈ (LoadEnvVars "test" dir stat load).1) ∧
    (∀ env, env ≠ "test" → stat (joinPath dir ".env.local") = true →
      joinPath dir ".env.local" ∈ (LoadEnvVars env dir stat load).1) := by
  have hn1 : (".env." ++ "test" ++ ".local" : String) = ".env.test.local" := by decide
  have hn2 : (".env." ++ "test" : String) = ".env.test" := by decide
  have hcas := LoadEnvVars_ok "test" dir stat load hload
  rw [hn1, hn2] at hcas
  refine ⟨?_, ?_, ?_⟩
  · have h1 : joinPath dir ".env.local" ≠ joinPath dir ".env.test.local" :=
      joinPath_inj_name dir _ _ (by decide)
    have h3 : joinPath dir ".env.local" ≠ joinPath dir ".env.test" :=
      joinPath_inj_name dir _ _ (by decide)
    have h4 : joinPath dir ".env.local" ≠ joinPath dir ".env" :=
      joinPath_inj_name dir _ _ (by decide)
    rw [hcas]
    simp only [ne_eq, eq_self_iff_true, not_true, false_and, if_false,
      List.append_nil, List.nil_append, List.mem_append]
    intro hmem
    rcases hmem with (hm | hm) | hm <;> revert hm <;> split_ifs <;>
      simp_all
  · intro nm hnm hstat
    rw [hcas]
    simp only [List.mem_cons, List.not_mem_nil, or_false] at hnm
    rcases hnm with rfl | rfl | rfl
    · exact List.mem_append_left _ (List.mem_append_left _
        (List.mem_append_left _ (mem_ite_singleton _ hstat _)))
    · exact List.mem_append_left _ (List.mem_append_right _
        (mem_ite_singleton _ hstat _))
    · exact List.mem_append_right _ (mem_ite_singleton _ hstat _)
  · intro env henv hstat
    rw [LoadEnvVars_ok env dir stat load hload]
    exact List.mem_append_left _ (List.mem_append_left _ (List.mem_append_right _
      (mem_ite_singleton _ ⟨henv, hstat⟩ _)))

/-- Witness for `loadenv_test_skips_generic_local` on a filesystem where
every file exists and every load succeeds. -/
theorem loadenv_test_skips_generic_local_witness :
    (joinPath "d" ".env.local"
        ∉ (LoadEnvVars "test" "d" (fun _ => true) (fun _ => .ok ())).1) ∧
    joinPath "d" ".env.test"
        ∈ (LoadEnvVars "test" "d" (fun _ => true) (fun _ => .ok ())).1 ∧
    joinPath "d" ".env.local"
        ∈ (LoadEnvVars "dev" "d" (fun _ => true) (fun _ => .ok ())).1 :=
  ⟨(loadenv_test_skips_generic_local "d" (fun _ => true) (fun _ => .ok ())
      (fun _ => rfl)).1,
    (loadenv_test_skips_generic_local "d" (fun _ => true) (fun _ => .ok ())
      (fun _ => rfl)).2.1 ".env.test" (by decide) rfl,
    (loadenv_test_skips_generic_local "d" (fun _ => true) (fun _ => .ok ())
      (fun _ => rfl)).2.2 "dev" (by decide) rfl⟩
